import Mathlib

/-!
Shallow embedding of the PDF-export pagination pipeline and the analysis
UI state handling of the website-review frontend (`frontend/src/App.js`).

The core of the program is `handleDownloadPDF`: it captures the report view
into a canvas, computes `imgHeight = canvas.height * imgWidth / canvas.width`
with `imgWidth = 210` (A4 width, mm) and `pageHeight = 297` (A4 height, mm),
draws the image on a first page at position `0`, and then runs

    heightLeft -= pageHeight;
    while (heightLeft >= 0) {
      position = heightLeft - imgHeight;
      pdf.addPage();
      pdf.addImage(imgData, 'PNG', 0, position, imgWidth, imgHeight, ...);
      heightLeft -= pageHeight;
    }
    pdf.save('CRO_Analysis_Report.pdf');

All arithmetic is exact on the quantities involved, so it is modelled in ℚ.
The loop is embedded with a structural fuel argument; `pageLimit` supplies
fuel that is proved sufficient (`sliceLoop_eq_range` shows the result is
independent of the fuel once it exceeds the iteration count).
-/

namespace WebsiteReviewer

/-- One iteration step of the `while (heightLeft >= 0)` slicing loop of
`handleDownloadPDF` (App.js lines 91–96).  Each iteration emits the draw
position `heightLeft - imgHeight` passed to `pdf.addImage` for one extra
page, then decrements `heightLeft` by `pageHeight`.  The `fuel` argument
only bounds the number of iterations. -/
def sliceLoop (imgHeight pageHeight : ℚ) : ℕ → ℚ → List ℚ
  | 0, _ => []
  | fuel + 1, heightLeft =>
    if 0 ≤ heightLeft then
      (heightLeft - imgHeight) :: sliceLoop imgHeight pageHeight fuel (heightLeft - pageHeight)
    else []

/-- Fuel bound for `sliceLoop`: strictly more than the number of loop
iterations whenever `0 < pageHeight`. -/
def pageLimit (imgHeight pageHeight : ℚ) : ℕ :=
  (⌈imgHeight / pageHeight⌉).toNat + 1

/-- Draw positions of the additional pages produced by the loop
(everything after the unconditional first page). -/
def paginateTail (imgHeight pageHeight : ℚ) : List ℚ :=
  sliceLoop imgHeight pageHeight (pageLimit imgHeight pageHeight) (imgHeight - pageHeight)

/-- The full list of `addImage` draw positions, one per emitted page: the
first page is drawn at position `0` (App.js line 87), then one page per
loop iteration. -/
def paginatePositions (imgHeight pageHeight : ℚ) : List ℚ :=
  0 :: paginateTail imgHeight pageHeight

/-- A `PageBand` (spec §3): the vertical slice of the source image that is
visible on one physical page. -/
structure PageBand where
  offset : ℚ
  height : ℚ
deriving DecidableEq

/-- The band shown by drawing the full image at vertical position `pos` on
a page of height `pageHeight`: the page window is `[-pos, -pos + pageHeight)`
in image coordinates, clipped to the bottom of the image. -/
def bandOfPosition (imgHeight pageHeight pos : ℚ) : PageBand :=
  { offset := -pos, height := min pageHeight (imgHeight + pos) }

/-- The ordered band sequence produced by one export of an image of height
`imgHeight` with page pixel height `pageHeight`. -/
def bands (imgHeight pageHeight : ℚ) : List PageBand :=
  (paginatePositions imgHeight pageHeight).map (bandOfPosition imgHeight pageHeight)

/-- Number of pages (= bands) the export emits. -/
def bandCount (imgHeight pageHeight : ℚ) : ℕ :=
  (bands imgHeight pageHeight).length

/-- The canvas returned by `html2canvas`: pixel width and height of the
captured report surface. -/
structure Canvas where
  width : ℚ
  height : ℚ
deriving DecidableEq

/-- Observable effects of the export pipeline, in order: jsPDF calls
(`addPage`, `addImage x y w h`, `save filename`) and the user-facing
failure notification (`alert`). -/
inductive PdfEffect where
  | addPage : PdfEffect
  | addImage (x y w h : ℚ) : PdfEffect
  | savePdf (filename : String) : PdfEffect
  | alertUser (message : String) : PdfEffect
deriving DecidableEq

/-- Effect trace of the successful branch of `handleDownloadPDF`
(App.js lines 79–99): compute `imgWidth = 210`, `pageHeight = 297`,
`imgHeight = canvas.height * imgWidth / canvas.width`, draw the first page
at position `0`, run the slicing loop adding one page per iteration, and
finally save the document. -/
def exportEffects (canvas : Canvas) : List PdfEffect :=
  let imgWidth : ℚ := 210
  let pageHeight : ℚ := 297
  let imgHeight : ℚ := canvas.height * imgWidth / canvas.width
  (PdfEffect.addImage 0 0 imgWidth imgHeight ::
    (paginateTail imgHeight pageHeight).flatMap
      (fun pos => [PdfEffect.addPage, PdfEffect.addImage 0 pos imgWidth imgHeight]))
  ++ [PdfEffect.savePdf "CRO_Analysis_Report.pdf"]

/-- The whole `handleDownloadPDF` handler: the `html2canvas(...)` promise
either resolves with a canvas (then the `.then` branch assembles and saves
the document) or rejects (then the `.catch` branch logs and alerts; no
jsPDF call is ever made). -/
def handleDownloadPDF (captureResult : Except String Canvas) : List PdfEffect :=
  match captureResult with
  | Except.ok canvas => exportEffects canvas
  | Except.error _ => [PdfEffect.alertUser "Failed to generate PDF. Please try again."]

/-- The analysis payload returned by the backend; its contents are never
inspected by the logic modelled here. -/
abbrev AnalysisReport := String

/-- The four `useState` cells of the `App` component. -/
structure AppState where
  url : String
  loading : Bool
  results : Option AnalysisReport
  error : Option String
deriving DecidableEq

/-- Synchronous prefix of `handleAnalyze` (App.js lines 106–114): an empty
URL sets an error message and returns without issuing a request; otherwise
the loading flag is set and any previous error is cleared before the
request is issued.  The boolean records whether a request was issued. -/
def handleAnalyzeStart (s : AppState) : AppState × Bool :=
  if s.url = "" then ({ s with error := some "Please enter a website URL" }, false)
  else ({ s with loading := true, error := none }, true)

/-- Completion of `handleAnalyze` (App.js lines 115–123): on success the
results are stored; on failure an error message is set and the results are
left untouched; the `finally` block resets the loading flag either way. -/
def handleAnalyzeFinish (s : AppState) (response : Except String AnalysisReport) : AppState :=
  match response with
  | Except.ok data => { s with results := some data, loading := false }
  | Except.error _ =>
      { s with error := some "Failed to analyze website. Please try another URL.",
               loading := false }

/-- The analyze button (App.js line 139) carries `disabled={loading}`. -/
def analyzeButtonDisabled (s : AppState) : Bool := s.loading

/-- The Download PDF button (App.js lines 289–293) is rendered only while
results are shown. -/
def downloadButtonShown (s : AppState) : Bool := s.results.isSome

/-- The Download PDF button (App.js line 290) carries no `disabled`
attribute: it is never disabled. -/
def downloadButtonDisabled (s : AppState) : Bool := false

/-- The view state together with the number of outstanding asynchronous
operations of each kind, used to reason about overlapping operations. -/
structure UISystem where
  state : AppState
  analysesInFlight : ℕ
  exportsInFlight : ℕ
deriving DecidableEq

/-- User-visible events: typing a URL, clicking a button (which only has
an effect when the control is rendered and enabled), and completion of an
outstanding asynchronous operation. -/
inductive UIEvent where
  | setUrl (u : String)
  | clickAnalyze
  | analyzeResult (r : Except String AnalysisReport)
  | clickDownload
  | exportDone

/-- One step of the view: buttons fire their App.js handlers only when the
control is rendered and not disabled; completions apply the corresponding
continuation of the handler. -/
def step (sys : UISystem) (e : UIEvent) : UISystem :=
  match e with
  | UIEvent.setUrl u => { sys with state := { sys.state with url := u } }
  | UIEvent.clickAnalyze =>
      if analyzeButtonDisabled sys.state then sys
      else
        let r := handleAnalyzeStart sys.state
        { sys with state := r.1,
                   analysesInFlight := sys.analysesInFlight + (if r.2 then 1 else 0) }
  | UIEvent.analyzeResult r =>
      if sys.analysesInFlight = 0 then sys
      else { sys with state := handleAnalyzeFinish sys.state r,
                      analysesInFlight := sys.analysesInFlight - 1 }
  | UIEvent.clickDownload =>
      if downloadButtonShown sys.state && !downloadButtonDisabled sys.state then
        { sys with exportsInFlight := sys.exportsInFlight + 1 }
      else sys
  | UIEvent.exportDone => { sys with exportsInFlight := sys.exportsInFlight - 1 }

/-- Initial state of the `App` component: empty URL, not loading, no
results, no error, nothing in flight. -/
def initSystem : UISystem :=
  { state := { url := "", loading := false, results := none, error := none },
    analysesInFlight := 0, exportsInFlight := 0 }

/-- Run the view on a sequence of events from the initial state. -/
def runUI (es : List UIEvent) : UISystem := es.foldl step initSystem

/-- Invariant tying the loading flag to the number of outstanding analysis
requests: an analysis is outstanding exactly while the loading flag is set. -/
def AnalysisInv (sys : UISystem) : Prop :=
  sys.analysesInFlight = (if sys.state.loading then 1 else 0)

/-- The loop body never runs when the remaining height is already negative. -/
lemma sliceLoop_neg (imgH p : ℚ) (fuel : ℕ) (hl : ℚ) (h : hl < 0) :
    sliceLoop imgH p fuel hl = [] := by
  cases fuel with
  | zero => rfl
  | succ fuel => simp only [sliceLoop]; rw [if_neg (not_le.mpr h)]

/-- Dividing the decremented remaining height shifts the floor by one. -/
lemma floor_div_sub (h p : ℚ) (hp : p ≠ 0) : ⌊(h - p) / p⌋ = ⌊h / p⌋ - 1 := by
  rw [sub_div, div_self hp, Int.floor_sub_one]

/-- Closed form of the slicing loop: starting from remaining height `hl`, the
loop performs exactly `⌊hl / p⌋ + 1` iterations (when `0 ≤ hl`; none
otherwise), emitting position `hl - k * p - imgH` at iteration `k`.  The
result does not depend on the fuel once the fuel exceeds `⌊hl / p⌋`. -/
lemma sliceLoop_eq_range (imgH p : ℚ) (hp : 0 < p) :
    ∀ (fuel : ℕ) (hl : ℚ), ⌊hl / p⌋ < (fuel : ℤ) →
      sliceLoop imgH p fuel hl =
        if 0 ≤ hl then
          (List.range (⌊hl / p⌋.toNat + 1)).map (fun k : ℕ => hl - (k : ℚ) * p - imgH)
        else [] := by
  intro fuel
  induction fuel with
  | zero =>
    intro hl hfl
    have hneg : hl < 0 := by
      by_contra hcon
      push_neg at hcon
      have : (0 : ℤ) ≤ ⌊hl / p⌋ := Int.floor_nonneg.mpr (div_nonneg hcon hp.le)
      omega
    rw [sliceLoop_neg _ _ _ _ hneg, if_neg (not_le.mpr hneg)]
  | succ fuel ih =>
    intro hl hfl
    by_cases hpos : 0 ≤ hl
    · rw [if_pos hpos]
      have hsub : ⌊(hl - p) / p⌋ = ⌊hl / p⌋ - 1 := floor_div_sub hl p hp.ne'
      simp only [sliceLoop]
      rw [if_pos hpos, ih (hl - p) (by rw [hsub]; push_cast at hfl ⊢; omega)]
      by_cases hrec : 0 ≤ hl - p
      · rw [if_pos hrec]
        have hfl1 : (1 : ℤ) ≤ ⌊hl / p⌋ := by
          rw [Int.le_floor]
          push_cast
          rw [le_div_iff₀ hp]
          linarith
        have htn : ⌊(hl - p) / p⌋.toNat + 1 = ⌊hl / p⌋.toNat := by
          rw [hsub]; omega
        rw [htn, List.range_succ_eq_map]
        simp only [List.map_cons, List.map_map]
        have hfun : ((fun k : ℕ => hl - (k : ℚ) * p - imgH) ∘ Nat.succ)
            = fun k : ℕ => (hl - p) - (k : ℚ) * p - imgH := by
          funext k
          simp only [Function.comp]
          push_cast
          ring
        rw [hfun]
        norm_num
      · rw [if_neg hrec]
        have h0 : ⌊hl / p⌋ = 0 := by
          rw [Int.floor_eq_zero_iff, Set.mem_Ico]
          exact ⟨div_nonneg hpos hp.le, (div_lt_one hp).mpr (by linarith)⟩
        rw [h0]
        simp [List.range_succ]
    · rw [if_neg hpos, sliceLoop_neg _ _ _ _ (lt_of_not_ge hpos)]

/-- Closed form of the emitted draw positions: page `k` (0-based) is drawn
at vertical position `-(k * p)`, and there are `⌊h / p⌋ + 1` pages. -/
lemma paginatePositions_eq (h p : ℚ) (hp : 0 < p) (hh : 0 ≤ h) :
    paginatePositions h p =
      (List.range (⌊h / p⌋.toNat + 1)).map (fun k : ℕ => -((k : ℚ) * p)) := by
  unfold paginatePositions paginateTail
  have hsub : ⌊(h - p) / p⌋ = ⌊h / p⌋ - 1 := floor_div_sub h p hp.ne'
  have hfuel : ⌊(h - p) / p⌋ < (pageLimit h p : ℤ) := by
    have h2 : ⌊h / p⌋ ≤ ⌈h / p⌉ := Int.floor_le_ceil _
    have h3 : ⌈h / p⌉ ≤ (⌈h / p⌉.toNat : ℤ) := Int.self_le_toNat _
    unfold pageLimit
    push_cast
    omega
  rw [sliceLoop_eq_range h p hp _ _ hfuel]
  by_cases hge : 0 ≤ h - p
  · rw [if_pos hge]
    have hfl1 : (1 : ℤ) ≤ ⌊h / p⌋ := by
      rw [Int.le_floor]
      push_cast
      rw [le_div_iff₀ hp]
      linarith
    have htn : ⌊(h - p) / p⌋.toNat + 1 = ⌊h / p⌋.toNat := by
      rw [hsub]; omega
    rw [htn, List.range_succ_eq_map]
    simp only [List.map_cons, List.map_map]
    have hfun : ((fun k : ℕ => -((k : ℚ) * p)) ∘ Nat.succ)
        = fun k : ℕ => (h - p) - (k : ℚ) * p - h := by
      funext k
      simp only [Function.comp]
      push_cast
      ring
    rw [hfun]
    norm_num
  · rw [if_neg hge]
    have h0 : ⌊h / p⌋ = 0 := by
      rw [Int.floor_eq_zero_iff, Set.mem_Ico]
      exact ⟨div_nonneg hh hp.le, (div_lt_one hp).mpr (by linarith)⟩
    rw [h0]
    simp [List.range_succ]

/-- Closed form of the band sequence: band `k` starts at offset `k * p` and
shows `min p (h - k * p)` pixels of the image. -/
lemma bands_eq (h p : ℚ) (hp : 0 < p) (hh : 0 ≤ h) :
    bands h p = (List.range (⌊h / p⌋.toNat + 1)).map
      (fun k : ℕ => ({ offset := (k : ℚ) * p, height := min p (h - (k : ℚ) * p) } : PageBand)) := by
  unfold bands
  rw [paginatePositions_eq h p hp hh, List.map_map]
  congr 1
  funext k
  simp [bandOfPosition, sub_eq_add_neg]

/-- The export emits `⌊h / p⌋ + 1` pages. -/
lemma bandCount_eq (h p : ℚ) (hp : 0 < p) (hh : 0 ≤ h) :
    bandCount h p = ⌊h / p⌋.toNat + 1 := by
  unfold bandCount
  rw [bands_eq h p hp hh]
  simp

/-- When the scaled image is strictly shorter than one page the slicing
loop never runs, so the export consists of a single drawn page followed by
the save call. -/
lemma exportEffects_short (c : Canvas) (hlt : c.height * 210 / c.width < 297) :
    exportEffects c =
      [PdfEffect.addImage 0 0 210 (c.height * 210 / c.width),
       PdfEffect.savePdf "CRO_Analysis_Report.pdf"] := by
  have hneg : c.height * 210 / c.width - 297 < 0 := by linarith
  simp only [exportEffects, paginateTail]
  rw [sliceLoop_neg _ _ _ _ hneg]
  simp

/-- C1: for image height 2000 and page pixel height 1000 (spec Scenario C)
the code emits 3 bands, where the claim demands exactly 2000 / 1000 = 2:
the `while (heightLeft >= 0)` loop runs once more when the remaining height
reaches exactly 0, emitting a blank trailing page. -/
theorem scenarioC_bandCount_three : bandCount 2000 1000 = 3 := by
  rw [bandCount_eq 2000 1000 (by norm_num) (by norm_num),
    (by norm_num : ⌊(2000 : ℚ) / 1000⌋ = 2)]
  rfl

/-- C2: for image height 2000 and page pixel height 1000 the final band is
the blank trailing page: offset 2000, height 0.  Its height equals
`h - p * (bandCount - 1) = 2000 - 1000 * 2 = 0`, which is not `> 0` as the
claim demands. -/
theorem scenarioC_last_band_blank :
    (bands 2000 1000).getLast? = some { offset := 2000, height := 0 } := by
  have hb : bands 2000 1000 =
      [{ offset := 0, height := 1000 }, { offset := 1000, height := 1000 },
       { offset := 2000, height := 0 }] := by
    rw [bands_eq 2000 1000 (by norm_num) (by norm_num),
      (by norm_num : ⌊(2000 : ℚ) / 1000⌋ = 2), (by rfl : Int.toNat 2 = 2)]
    norm_num [List.range_succ, PageBand.mk.injEq, min_def]
  rw [hb]
  rfl

/-- C5 (counterexample): a capture of height 0 does not fail and does not
raise any `EmptyCaptureError` — the code has no such check: it draws one
degenerate zero-height page and saves the artifact. -/
theorem zero_height_capture_saves_artifact :
    handleDownloadPDF (Except.ok { width := 210, height := 0 }) =
      [PdfEffect.addImage 0 0 210 0, PdfEffect.savePdf "CRO_Analysis_Report.pdf"] := by
  have h := exportEffects_short { width := 210, height := 0 } (by norm_num)
  norm_num at h
  simpa [handleDownloadPDF] using h

/-- C5 (amended): an image strictly shorter than one page yields exactly
one band of full height `h`; a capture of height 0 yields a saved document
with a single degenerate zero-height page instead of failing. -/
theorem short_or_empty_capture (h p : ℚ) (c : Canvas) (hp : 0 < p) (hh : 0 ≤ h)
    (hlt : h < p) (hc : c.height = 0) :
    bands h p = [{ offset := 0, height := h }] ∧
    handleDownloadPDF (Except.ok c) =
      [PdfEffect.addImage 0 0 210 0, PdfEffect.savePdf "CRO_Analysis_Report.pdf"] := by
  constructor
  · rw [bands_eq h p hp hh]
    have h0 : ⌊h / p⌋ = 0 := by
      rw [Int.floor_eq_zero_iff, Set.mem_Ico]
      exact ⟨div_nonneg hh hp.le, (div_lt_one hp).mpr hlt⟩
    rw [h0]
    simp [List.range_succ, min_eq_right hlt.le]
  · have himg : c.height * 210 / c.width = 0 := by rw [hc]; simp
    have heff := exportEffects_short c (by rw [himg]; norm_num)
    rw [himg] at heff
    simpa [handleDownloadPDF] using heff

/-- Witness for `short_or_empty_capture` at image height 100, page height
297 and a zero-height canvas. -/
theorem short_or_empty_capture_witness :
    (0 : ℚ) < 297 ∧ (0 : ℚ) ≤ 100 ∧ (100 : ℚ) < 297 ∧
    (Canvas.mk 210 0).height = 0 ∧
    bands 100 297 = [{ offset := 0, height := 100 }] := by
  refine ⟨by norm_num, by norm_num, by norm_num, rfl, ?_⟩
  exact (short_or_empty_capture 100 297 ⟨210, 0⟩ (by norm_num) (by norm_num)
    (by norm_num) rfl).1

/-- C6: when the capture promise rejects, the `.catch` branch runs: the
export is aborted — no page is assembled and nothing is saved — and the
user-facing alert is issued. -/
theorem capture_failure_aborts_export (e : String) :
    (∀ f, PdfEffect.savePdf f ∉ handleDownloadPDF (Except.error e)) ∧
    (∀ x y w ht, PdfEffect.addImage x y w ht ∉ handleDownloadPDF (Except.error e)) ∧
    PdfEffect.addPage ∉ handleDownloadPDF (Except.error e) ∧
    PdfEffect.alertUser "Failed to generate PDF. Please try again." ∈
      handleDownloadPDF (Except.error e) := by
  simp [handleDownloadPDF]

/-- C7: pagination and export are pure functions of the captured raster
image and the page format — two invocations on the same inputs produce
band sequences identical in count, order, offsets and heights, and
identical effect traces; no state is carried between invocations. -/
theorem pagination_idempotent (h₁ p₁ h₂ p₂ : ℚ) (c₁ c₂ : Canvas)
    (hh : h₁ = h₂) (hp : p₁ = p₂) (hc : c₁ = c₂) :
    bands h₁ p₁ = bands h₂ p₂ ∧ bandCount h₁ p₁ = bandCount h₂ p₂ ∧
    exportEffects c₁ = exportEffects c₂ := by
  subst hh
  subst hp
  subst hc
  exact ⟨rfl, rfl, rfl⟩

/-- Witness for `pagination_idempotent` at image height 1001, page height
1000 and a concrete canvas. -/
theorem pagination_idempotent_witness :
    bands 1001 1000 = bands 1001 1000 ∧ bandCount 1001 1000 = bandCount 1001 1000 ∧
    exportEffects ⟨210, 500⟩ = exportEffects ⟨210, 500⟩ :=
  pagination_idempotent 1001 1000 1001 1000 ⟨210, 500⟩ ⟨210, 500⟩ rfl rfl rfl

/-- C3: for every image height `h > 0` and page pixel height `p > 0` the
band sequence covers `[0, h)` exactly: offsets strictly increase, each band
after the first starts exactly where the previous band ends, and a point
`x` lies in some band's half-open interval iff `0 ≤ x < h`. -/
theorem bands_cover_exactly (h p : ℚ) (hh : 0 < h) (hp : 0 < p) :
    List.Chain' (fun a b => a.offset < b.offset) (bands h p) ∧
    List.Chain' (fun a b => b.offset = a.offset + a.height) (bands h p) ∧
    ∀ x : ℚ, (0 ≤ x ∧ x < h) ↔
      ∃ b ∈ bands h p, b.offset ≤ x ∧ x < b.offset + b.height := by
  have hh0 : (0 : ℚ) ≤ h := hh.le
  have hn0 : (0 : ℤ) ≤ ⌊h / p⌋ := Int.floor_nonneg.mpr (div_nonneg hh0 hp.le)
  have hcastn : ((⌊h / p⌋.toNat : ℤ)) = ⌊h / p⌋ := Int.toNat_of_nonneg hn0
  rw [bands_eq h p hp hh0]
  refine ⟨?_, ?_, ?_⟩
  · rw [List.chain'_map, ← Nat.succ_eq_add_one, List.chain'_range_succ]
    intro m hm
    show (m : ℚ) * p < (Nat.succ m : ℚ) * p
    have hlt : (m : ℚ) < Nat.succ m := by push_cast; linarith
    exact mul_lt_mul_of_pos_right hlt hp
  · rw [List.chain'_map, ← Nat.succ_eq_add_one, List.chain'_range_succ]
    intro m hm
    show (Nat.succ m : ℚ) * p = (m : ℚ) * p + min p (h - (m : ℚ) * p)
    have hle : ((m : ℤ) + 1) ≤ ⌊h / p⌋ := by omega
    have hle2 : ((m : ℚ) + 1) ≤ h / p := by
      have hq := Int.le_floor.mp hle
      push_cast at hq
      exact hq
    rw [le_div_iff₀ hp] at hle2
    have hexp : ((m : ℚ) + 1) * p = (m : ℚ) * p + p := by ring
    have hminp : p ≤ h - (m : ℚ) * p := by linarith [hle2, hexp.symm.trans_le hle2]
    rw [min_eq_left hminp]
    push_cast
    ring
  · intro x
    constructor
    · rintro ⟨hx0, hxh⟩
      have hk0 : (0 : ℤ) ≤ ⌊x / p⌋ := Int.floor_nonneg.mpr (div_nonneg hx0 hp.le)
      have hkle : ⌊x / p⌋ ≤ ⌊h / p⌋ :=
        Int.floor_mono ((div_le_div_iff_of_pos_right hp).mpr hxh.le)
      have hcast : ((⌊x / p⌋.toNat : ℚ)) = ((⌊x / p⌋ : ℤ) : ℚ) := by
        exact_mod_cast congrArg Int.cast (Int.toNat_of_nonneg hk0)
      refine ⟨{ offset := (⌊x / p⌋.toNat : ℚ) * p,
                height := min p (h - (⌊x / p⌋.toNat : ℚ) * p) }, ?_, ?_, ?_⟩
      · exact List.mem_map.mpr ⟨⌊x / p⌋.toNat, List.mem_range.mpr (by omega), rfl⟩
      · show (⌊x / p⌋.toNat : ℚ) * p ≤ x
        rw [hcast]
        calc ((⌊x / p⌋ : ℤ) : ℚ) * p ≤ (x / p) * p :=
              mul_le_mul_of_nonneg_right (Int.floor_le (x / p)) hp.le
          _ = x := div_mul_cancel₀ x hp.ne'
      · show x < (⌊x / p⌋.toNat : ℚ) * p + min p (h - (⌊x / p⌋.toNat : ℚ) * p)
        rw [hcast, ← min_add_add_left, lt_min_iff]
        constructor
        · have hfl : x / p < ((⌊x / p⌋ : ℤ) : ℚ) + 1 := Int.lt_floor_add_one (x / p)
          have hx2 : x < (((⌊x / p⌋ : ℤ) : ℚ) + 1) * p := (div_lt_iff₀ hp).mp hfl
          have hexp : (((⌊x / p⌋ : ℤ) : ℚ) + 1) * p = ((⌊x / p⌋ : ℤ) : ℚ) * p + p := by
            ring
          linarith [hexp ▸ hx2]
        · have hsum : ((⌊x / p⌋ : ℤ) : ℚ) * p + (h - ((⌊x / p⌋ : ℤ) : ℚ) * p) = h := by
            ring
          rw [hsum]
          exact hxh
    · rintro ⟨b, hb, hblo, hbhi⟩
      obtain ⟨k, hkr, rfl⟩ := List.mem_map.mp hb
      dsimp only at hblo hbhi
      have hk0 : (0 : ℚ) ≤ (k : ℚ) * p := mul_nonneg (Nat.cast_nonneg k) hp.le
      refine ⟨le_trans hk0 hblo, ?_⟩
      have hmin : min p (h - (k : ℚ) * p) ≤ h - (k : ℚ) * p := min_le_right _ _
      linarith

/-- Witness for `bands_cover_exactly` at image height 1001 and page pixel
height 1000 (spec Scenario B). -/
theorem bands_cover_exactly_witness :
    List.Chain' (fun a b => a.offset < b.offset) (bands 1001 1000) ∧
    List.Chain' (fun a b => b.offset = a.offset + a.height) (bands 1001 1000) ∧
    ∀ x : ℚ, (0 ≤ x ∧ x < 1001) ↔
      ∃ b ∈ bands 1001 1000, b.offset ≤ x ∧ x < b.offset + b.height :=
  bands_cover_exactly 1001 1000 (by norm_num) (by norm_num)

/-- C4: page `i` (0-based; page `k = i + 1` in 1-based terms) draws the
full image at vertical position `-(i * pageHeight)`, i.e. offset upward by
exactly the cumulative height consumed by the `i` earlier pages. -/
theorem page_draw_positions (h p : ℚ) (hp : 0 < p) (hh : 0 ≤ h) (i : ℕ)
    (hi : i < (paginatePositions h p).length) :
    (paginatePositions h p)[i] = -((i : ℚ) * p) := by
  have heq := paginatePositions_eq h p hp hh
  rw [List.getElem_of_eq heq hi, List.getElem_map, List.getElem_range]

/-- Witness for `page_draw_positions`: with image height 1001 and page
height 1000 the second page (index 1) is drawn at position `-1000`. -/
theorem page_draw_positions_witness :
    (paginatePositions 1001 1000)[1]? = some (-(1 * 1000 : ℚ)) := by
  have hlen : (paginatePositions 1001 1000).length = 2 := by
    rw [paginatePositions_eq 1001 1000 (by norm_num) (by norm_num)]
    rw [List.length_map, List.length_range, (by norm_num : ⌊(1001 : ℚ) / 1000⌋ = 1)]
    rfl
  have hi : 1 < (paginatePositions 1001 1000).length := by rw [hlen]; norm_num
  rw [List.getElem?_eq_getElem hi,
    page_draw_positions 1001 1000 (by norm_num) (by norm_num) 1 hi]
  norm_num

/-- One step of the view preserves the analysis-flight invariant. -/
lemma analysisInv_step (sys : UISystem) (e : UIEvent) (hinv : AnalysisInv sys) :
    AnalysisInv (step sys e) := by
  unfold AnalysisInv at hinv ⊢
  cases e with
  | setUrl u => exact hinv
  | clickAnalyze =>
    cases hd : analyzeButtonDisabled sys.state with
    | true => simpa [step, hd] using hinv
    | false =>
      have hload : sys.state.loading = false := by
        simpa [analyzeButtonDisabled] using hd
      rw [hload] at hinv
      simp only [Bool.false_eq_true, if_false] at hinv
      by_cases hurl : sys.state.url = ""
      · simp [step, hd, handleAnalyzeStart, hurl, hload, hinv]
      · simp [step, hd, handleAnalyzeStart, hurl, hload, hinv]
  | analyzeResult r =>
    by_cases h0 : sys.analysesInFlight = 0
    · simpa [step, h0] using hinv
    · have hload : sys.state.loading = true := by
        cases hl : sys.state.loading with
        | true => rfl
        | false =>
          rw [hl] at hinv
          simp only [Bool.false_eq_true, if_false] at hinv
          exact absurd hinv h0
      rw [hload] at hinv
      simp only [if_pos rfl] at hinv
      cases r with
      | ok d => simp [step, h0, handleAnalyzeFinish, hinv]
      | error msg => simp [step, h0, handleAnalyzeFinish, hinv]
  | clickDownload =>
    cases hc : downloadButtonShown sys.state && !downloadButtonDisabled sys.state with
    | true => simpa [step, hc] using hinv
    | false => simpa [step, hc] using hinv
  | exportDone => exact hinv

/-- The analysis-flight invariant holds along any run of the view. -/
lemma analysisInv_run (es : List UIEvent) :
    ∀ sys : UISystem, AnalysisInv sys → AnalysisInv (es.foldl step sys) := by
  induction es with
  | nil => intro sys hinv; exact hinv
  | cons e es ih => intro sys hinv; exact ih (step sys e) (analysisInv_step sys e hinv)

/-- C8 (amended): the analyze control is disabled exactly while an
analysis request is outstanding, so at most one analysis is ever in flight;
the Download PDF control, by contrast, is never disabled. -/
theorem analyze_single_flight (es : List UIEvent) :
    (runUI es).analysesInFlight ≤ 1 ∧
    downloadButtonDisabled (runUI es).state = false := by
  have hinv :=
    analysisInv_run es initSystem (by simp [AnalysisInv, initSystem])
  unfold AnalysisInv at hinv
  constructor
  · unfold runUI
    rw [hinv]
    split <;> norm_num
  · rfl

/-- C8 (counterexample): starting from the initial view, entering a URL,
completing one analysis and then clicking Download PDF twice leaves two
export operations outstanding at once — the Download PDF control is still
enabled while the first export is in flight. -/
theorem overlapping_exports_possible :
    (runUI [UIEvent.setUrl "https://example.com", UIEvent.clickAnalyze,
      UIEvent.analyzeResult (Except.ok "report"), UIEvent.clickDownload,
      UIEvent.clickDownload]).exportsInFlight = 2 ∧
    downloadButtonDisabled (runUI [UIEvent.setUrl "https://example.com",
      UIEvent.clickAnalyze, UIEvent.analyzeResult (Except.ok "report"),
      UIEvent.clickDownload]).state = false := by
  exact ⟨rfl, rfl⟩

/-- C9: when the analysis request fails, the previously displayed report
(and the URL) are left unchanged — only the error message is set and the
loading flag cleared. -/
theorem analyze_failure_frame (s : AppState) (e : String) (hurl : s.url ≠ "") :
    (handleAnalyzeFinish (handleAnalyzeStart s).1 (Except.error e)).results = s.results ∧
    (handleAnalyzeFinish (handleAnalyzeStart s).1 (Except.error e)).url = s.url ∧
    (handleAnalyzeFinish (handleAnalyzeStart s).1 (Except.error e)).error =
      some "Failed to analyze website. Please try another URL." ∧
    (handleAnalyzeFinish (handleAnalyzeStart s).1 (Except.error e)).loading = false := by
  simp [handleAnalyzeStart, handleAnalyzeFinish, hurl]

/-- Witness for `analyze_failure_frame`: a failing request leaves the old
report in place. -/
theorem analyze_failure_frame_witness :
    (AppState.mk "https://example.com" false (some "old report") none).url ≠ "" ∧
    (handleAnalyzeFinish
      (handleAnalyzeStart (AppState.mk "https://example.com" false (some "old report") none)).1
      (Except.error "network")).results = some "old report" := by
  refine ⟨by decide, ?_⟩
  exact (analyze_failure_frame
    (AppState.mk "https://example.com" false (some "old report") none) "network" (by decide)).1

/-- C10: with a non-empty URL, `handleAnalyze` issues the request with the
previous error cleared and the loading flag set, and the loading flag is
reset when the request completes, successfully or not; with an empty URL it
sets an error message and returns without issuing a request or touching the
loading flag or the results. -/
theorem analyze_loading_protocol (s : AppState) :
    (s.url ≠ "" →
      (handleAnalyzeStart s).2 = true ∧
      (handleAnalyzeStart s).1.error = none ∧
      (handleAnalyzeStart s).1.loading = true ∧
      (handleAnalyzeStart s).1.results = s.results ∧
      ∀ r : Except String AnalysisReport,
        (handleAnalyzeFinish (handleAnalyzeStart s).1 r).loading = false) ∧
    (s.url = "" →
      (handleAnalyzeStart s).2 = false ∧
      (handleAnalyzeStart s).1.loading = s.loading ∧
      (handleAnalyzeStart s).1.results = s.results ∧
      (handleAnalyzeStart s).1.error = some "Please enter a website URL") := by
  constructor
  · intro hurl
    refine ⟨?_, ?_, ?_, ?_, ?_⟩
    · simp [handleAnalyzeStart, hurl]
    · simp [handleAnalyzeStart, hurl]
    · simp [handleAnalyzeStart, hurl]
    · simp [handleAnalyzeStart, hurl]
    · intro r
      cases r with
      | ok d => simp [handleAnalyzeStart, handleAnalyzeFinish, hurl]
      | error msg => simp [handleAnalyzeStart, handleAnalyzeFinish, hurl]
  · intro hurl
    refine ⟨?_, ?_, ?_, ?_⟩ <;> simp [handleAnalyzeStart, hurl]

/-- Witness for `analyze_loading_protocol` at a concrete state with a
non-empty URL and a concrete failing completion. -/
theorem analyze_loading_protocol_witness :
    (handleAnalyzeStart (AppState.mk "https://example.com" false none (some "stale"))).2
      = true ∧
    (handleAnalyzeStart (AppState.mk "https://example.com" false none (some "stale"))).1.error
      = none ∧
    (handleAnalyzeStart (AppState.mk "https://example.com" false none (some "stale"))).1.loading
      = true ∧
    (handleAnalyzeFinish
      (handleAnalyzeStart (AppState.mk "https://example.com" false none (some "stale"))).1
      (Except.error "boom")).loading = false := by
  have hmain := (analyze_loading_protocol
    (AppState.mk "https://example.com" false none (some "stale"))).1 (by decide)
  exact ⟨hmain.1, hmain.2.1, hmain.2.2.1, hmain.2.2.2.2 (Except.error "boom")⟩

end WebsiteReviewer
